import Mathlib

/-!
Verification of the BlockTimeConverter specified for
models/examples/08_blocknumber_examples.py.

The example file only exercises the external CMF class BlockNumber; the
converter logic itself (bounds checks, timestamp lookup, datetime handling)
is not part of the repository sources.  Following the specification, we
model that converter here and prove the spec's testable properties about
the model.
-/

namespace BlockTime

/-- Modelled from the spec: error taxonomy of the converter
(section 7).  OutOfRangeError for block indices outside
0..currentBlock or timestamps before the earliest block;
InvalidInputError for time points without explicit UTC offset.
The underlying CMF exceptions (BlockNumberOutOfRangeError,
ModelInputError) are not under the repository sources. -/
inductive ConvError where
  | OutOfRangeError : ConvError
  | InvalidInputError : ConvError
deriving DecidableEq, Repr

/-- Modelled from the spec: the bounded chain state, i.e. the
configuration currentBlock together with the external read-only
BlockTimeMapping timestampOf (sections 3 and 6).  Timestamps are
unix seconds as integers. -/
structure Chain where
  currentBlock : Nat
  timestampOf : Nat → Int

/-- Modelled from the spec: the BlockTimeMapping invariant, a
monotonic non-decreasing function of the block index (section 3),
expressed step-wise over the known range so it is decidable on
concrete chains. -/
def Chain.Mono (c : Chain) : Prop :=
  ∀ i : Fin c.currentBlock, c.timestampOf i.val ≤ c.timestampOf (i.val + 1)

instance (c : Chain) : Decidable c.Mono := by
  unfold Chain.Mono; infer_instance

/-- Modelled from the spec: a Python datetime value as the converter
sees it: a wall-clock reading (seconds since epoch, as if it were UTC)
together with an optional UTC offset in seconds; tzOffset = none is a
timezone-naive datetime. -/
structure DateTime where
  wallClock : Int
  tzOffset : Option Int
deriving DecidableEq, Repr

/-- Modelled from the spec: the absolute UTC instant denoted by an
aware datetime: wall clock minus UTC offset. -/
def DateTime.instant (d : DateTime) (off : Int) : Int :=
  d.wallClock - off

/-- Modelled from the spec: a TimePoint argument of fromTimestamp:
either a datetime object or a bare unix number (seconds since epoch,
no timezone information), as accepted by BlockNumber.from_timestamp
in the example file. -/
inductive TimeInput where
  | dt : DateTime → TimeInput
  | unix : Int → TimeInput
deriving DecidableEq, Repr

/-- Modelled from the spec: currentTimestamp(blockIndex) looks up
timestampOf(blockIndex), failing with OutOfRangeError if
blockIndex < 0 or blockIndex > currentBlock (section 4.1). -/
def currentTimestamp (c : Chain) (blockIndex : Int) : Except ConvError Int :=
  if blockIndex < 0 ∨ blockIndex > (c.currentBlock : Int) then
    .error .OutOfRangeError
  else
    .ok (c.timestampOf blockIndex.toNat)

/-- Modelled from the spec: the search for the greatest in-range block
index whose timestamp is at or before the given instant; scanning from
the top realises the tie-break "return the highest such index". -/
def findLatest (c : Chain) (t : Int) : Nat → Nat
  | 0 => 0
  | b + 1 => if c.timestampOf (b + 1) ≤ t then b + 1 else findLatest c t b

/-- Modelled from the spec: fromTimestamp on an absolute UTC instant:
OutOfRangeError when the instant predates the earliest known block,
otherwise the greatest block index whose timestamp is at or before the
instant, clamped to currentBlock (section 4.1). -/
def fromTimestampCore (c : Chain) (t : Int) : Except ConvError Nat :=
  if t < c.timestampOf 0 then .error .OutOfRangeError
  else .ok (findLatest c t c.currentBlock)

/-- Modelled from the spec: fromTimestamp(timePoint).  A naive datetime
fails with InvalidInputError; an aware datetime is converted at its UTC
instant; a bare unix number is interpreted as seconds since epoch in
UTC (section 4.1 and the example lines 113-117). -/
def fromTimestamp (c : Chain) : TimeInput → Except ConvError Nat
  | .dt d =>
    match d.tzOffset with
    | none => .error .InvalidInputError
    | some off => fromTimestampCore c (d.instant off)
  | .unix t => fromTimestampCore c t

/-- Modelled from the spec: offsetBlocks(blockIndex, delta) returns
blockIndex + delta, failing with OutOfRangeError if the result is
negative or exceeds currentBlock (section 4.1). -/
def offsetBlocks (c : Chain) (blockIndex : Nat) (delta : Int) : Except ConvError Nat :=
  if (blockIndex : Int) + delta < 0 ∨ (blockIndex : Int) + delta > (c.currentBlock : Int) then
    .error .OutOfRangeError
  else
    .ok ((blockIndex : Int) + delta).toNat

/-- The input normalisation performed by the example.block-time model
(line 102 of the source): input.blockTime.replace(tzinfo=timezone.utc)
keeps the wall-clock reading and forces the offset to UTC, discarding
any original offset. -/
def replaceTzUtc (d : DateTime) : DateTime :=
  { wallClock := d.wallClock, tzOffset := some 0 }

/-- The conversion path of the example.block-time model (lines 102-106
of the source): normalise the input datetime to UTC, then call
fromTimestamp on it. -/
def blockTimeModelConvert (c : Chain) (d : DateTime) : Except ConvError Nat :=
  fromTimestamp c (.dt (replaceTzUtc d))

/-- A concrete five-block chain used by the witnesses. -/
def chainEx : Chain :=
  { currentBlock := 5, timestampOf := fun n => 100 + 10 * (n : Int) }

theorem mono_pair {c : Chain} (hm : c.Mono) :
    ∀ i j : Nat, i ≤ j → j ≤ c.currentBlock →
      c.timestampOf i ≤ c.timestampOf j := by
  intro i j hij
  induction j, hij using Nat.le_induction with
  | base => intro _; exact le_refl _
  | succ j hij ih =>
    intro hj
    have hjc : j < c.currentBlock := Nat.lt_of_succ_le hj
    exact le_trans (ih (Nat.le_of_lt hjc)) (hm ⟨j, hjc⟩)

theorem findLatest_le (c : Chain) (t : Int) (n : Nat) :
    findLatest c t n ≤ n := by
  induction n with
  | zero => exact Nat.le_refl 0
  | succ b ih =>
    unfold findLatest
    split
    · exact Nat.le_refl _
    · exact Nat.le_trans ih (Nat.le_succ b)

theorem findLatest_ts_le (c : Chain) (t : Int) (n : Nat)
    (h0 : c.timestampOf 0 ≤ t) :
    c.timestampOf (findLatest c t n) ≤ t := by
  induction n with
  | zero => exact h0
  | succ b ih =>
    unfold findLatest
    split
    · assumption
    · exact ih

theorem findLatest_greatest (c : Chain) (t : Int) (n : Nat) :
    ∀ b, b ≤ n → c.timestampOf b ≤ t → b ≤ findLatest c t n := by
  induction n with
  | zero => intro b hb _; exact hb
  | succ m ih =>
    intro b hb hts
    unfold findLatest
    split
    · exact hb
    · rename_i hlt
      rcases Nat.lt_or_ge b (m + 1) with hbm | hbm
      · exact ih b (Nat.lt_succ_iff.mp hbm) hts
      · have : b = m + 1 := Nat.le_antisymm hb hbm
        subst this
        exact absurd hts hlt

theorem findLatest_top (c : Chain) (t : Int) (n : Nat)
    (h : c.timestampOf n ≤ t) : findLatest c t n = n := by
  cases n with
  | zero => rfl
  | succ b => unfold findLatest; exact if_pos h

/-- C1: for every timezone-aware TimePoint whose UTC instant is not
earlier than the earliest known block and not later than the timestamp
of currentBlock, fromTimestamp returns the greatest BlockIndex b with
timestampOf(b) at or before the instant; ties are broken towards the
highest index, as the greatest-property already forces. -/
theorem fromTimestamp_greatest (c : Chain) (d : DateTime) (off : Int)
    (hoff : d.tzOffset = some off) (hm : c.Mono)
    (h0 : c.timestampOf 0 ≤ d.instant off)
    (h1 : d.instant off ≤ c.timestampOf c.currentBlock) :
    ∃ b, fromTimestamp c (.dt d) = .ok b ∧ b ≤ c.currentBlock ∧
      c.timestampOf b ≤ d.instant off ∧
      ∀ b2, b2 ≤ c.currentBlock → c.timestampOf b2 ≤ d.instant off → b2 ≤ b := by
  refine ⟨findLatest c (d.instant off) c.currentBlock, ?_, ?_, ?_, ?_⟩
  · simp only [fromTimestamp, hoff, fromTimestampCore]
    rw [if_neg (not_lt.mpr h0)]
  · exact findLatest_le c (d.instant off) c.currentBlock
  · exact findLatest_ts_le c (d.instant off) c.currentBlock h0
  · exact findLatest_greatest c (d.instant off) c.currentBlock

/-- C1 witness: the properties at a concrete chain and time point. -/
theorem fromTimestamp_greatest_witness :
    ∃ b, fromTimestamp chainEx (.dt ⟨135, some 0⟩) = .ok b ∧
      b ≤ chainEx.currentBlock ∧
      chainEx.timestampOf b ≤ DateTime.instant ⟨135, some 0⟩ 0 ∧
      ∀ b2, b2 ≤ chainEx.currentBlock →
        chainEx.timestampOf b2 ≤ DateTime.instant ⟨135, some 0⟩ 0 → b2 ≤ b :=
  fromTimestamp_greatest chainEx ⟨135, some 0⟩ 0 rfl (by decide)
    (by decide) (by decide)

/-- C2: round trip on exact block boundaries: for every in-range block
index b, on a monotone chain with pairwise-distinct timestamps,
currentTimestamp(b) succeeds and feeding its result back through
fromTimestamp (as a UTC-aware time point) returns exactly b. -/
theorem fromTimestamp_roundtrip (c : Chain) (b : Nat)
    (hb : b ≤ c.currentBlock) (hm : c.Mono)
    (hdist : ∀ i j : Fin (c.currentBlock + 1), i.val ≠ j.val →
      c.timestampOf i.val ≠ c.timestampOf j.val) :
    currentTimestamp c b = .ok (c.timestampOf b) ∧
    fromTimestamp c (.dt ⟨c.timestampOf b, some 0⟩) = .ok b := by
  constructor
  · unfold currentTimestamp
    rw [if_neg]
    · simp
    · push_neg
      constructor
      · exact Int.natCast_nonneg b
      · exact_mod_cast hb
  · have h0 : c.timestampOf 0 ≤ c.timestampOf b :=
      mono_pair hm 0 b (Nat.zero_le b) hb
    have hsub : (c.timestampOf b) - 0 = c.timestampOf b := Int.sub_zero _
    simp only [fromTimestamp, fromTimestampCore, DateTime.instant, hsub]
    rw [if_neg (not_lt.mpr h0)]
    have hbr : b ≤ findLatest c (c.timestampOf b) c.currentBlock :=
      findLatest_greatest c (c.timestampOf b) c.currentBlock b hb (le_refl _)
    have hrc : findLatest c (c.timestampOf b) c.currentBlock ≤ c.currentBlock :=
      findLatest_le c (c.timestampOf b) c.currentBlock
    have hts : c.timestampOf (findLatest c (c.timestampOf b) c.currentBlock) ≤
        c.timestampOf b :=
      findLatest_ts_le c (c.timestampOf b) c.currentBlock h0
    have hbt : c.timestampOf b ≤
        c.timestampOf (findLatest c (c.timestampOf b) c.currentBlock) :=
      mono_pair hm b _ hbr hrc
    have heq : c.timestampOf (findLatest c (c.timestampOf b) c.currentBlock) =
        c.timestampOf b := le_antisymm hts hbt
    have hfb : findLatest c (c.timestampOf b) c.currentBlock = b := by
      by_contra hne
      exact hdist ⟨findLatest c (c.timestampOf b) c.currentBlock,
        Nat.lt_succ_of_le hrc⟩ ⟨b, Nat.lt_succ_of_le hb⟩ hne heq
    rw [hfb]

/-- C2 witness: the round trip at a concrete chain and block index. -/
theorem fromTimestamp_roundtrip_witness :
    currentTimestamp chainEx 3 = .ok (chainEx.timestampOf 3) ∧
    fromTimestamp chainEx (.dt ⟨chainEx.timestampOf 3, some 0⟩) = .ok 3 :=
  fromTimestamp_roundtrip chainEx 3 (by decide) (by decide) (by decide)

/-- C3: a timezone-aware TimePoint whose UTC instant is strictly later
than the timestamp of currentBlock does not fail: fromTimestamp clamps
and returns exactly currentBlock. -/
theorem fromTimestamp_future_clamp (c : Chain) (d : DateTime) (off : Int)
    (hoff : d.tzOffset = some off) (hm : c.Mono)
    (ht : c.timestampOf c.currentBlock < d.instant off) :
    fromTimestamp c (.dt d) = .ok c.currentBlock := by
  have h0 : c.timestampOf 0 ≤ d.instant off :=
    le_trans (mono_pair hm 0 c.currentBlock (Nat.zero_le _) (le_refl _))
      (le_of_lt ht)
  simp only [fromTimestamp, hoff, fromTimestampCore]
  rw [if_neg (not_lt.mpr h0),
    findLatest_top c (d.instant off) c.currentBlock (le_of_lt ht)]

/-- C3 witness: ten days past the latest block clamps to the latest
block on the concrete chain. -/
theorem fromTimestamp_future_clamp_witness :
    fromTimestamp chainEx (.dt ⟨150 + 864000, some 0⟩) = .ok chainEx.currentBlock :=
  fromTimestamp_future_clamp chainEx ⟨150 + 864000, some 0⟩ 0 rfl
    (by decide) (by decide)

/-- C4: a timezone-naive datetime (no UTC offset information) makes
fromTimestamp fail with InvalidInputError. -/
theorem fromTimestamp_naive_invalid (c : Chain) (d : DateTime)
    (hoff : d.tzOffset = none) :
    fromTimestamp c (.dt d) = .error .InvalidInputError := by
  simp [fromTimestamp, hoff]

/-- C4 witness: a concrete naive datetime is rejected. -/
theorem fromTimestamp_naive_invalid_witness :
    fromTimestamp chainEx (.dt ⟨135, none⟩) = .error .InvalidInputError :=
  fromTimestamp_naive_invalid chainEx ⟨135, none⟩ rfl

/-- C5: currentTimestamp fails with OutOfRangeError on every block
index that is negative or exceeds currentBlock; in particular at
currentBlock + 1 and at -1. -/
theorem currentTimestamp_out_of_range (c : Chain) (i : Int)
    (h : i < 0 ∨ i > (c.currentBlock : Int)) :
    currentTimestamp c i = .error .OutOfRangeError ∧
    currentTimestamp c ((c.currentBlock : Int) + 1) = .error .OutOfRangeError ∧
    currentTimestamp c (-1) = .error .OutOfRangeError := by
  refine ⟨?_, ?_, ?_⟩
  · unfold currentTimestamp; exact if_pos h
  · unfold currentTimestamp
    exact if_pos (Or.inr (lt_add_one _))
  · unfold currentTimestamp
    exact if_pos (Or.inl (by norm_num))

/-- C5 witness: the out-of-range failures at the concrete chain. -/
theorem currentTimestamp_out_of_range_witness :
    currentTimestamp chainEx (-1) = .error .OutOfRangeError ∧
    currentTimestamp chainEx ((chainEx.currentBlock : Int) + 1) =
      .error .OutOfRangeError ∧
    currentTimestamp chainEx (-1) = .error .OutOfRangeError :=
  currentTimestamp_out_of_range chainEx (-1) (by decide)

/-- C6: offsetBlocks returns blockIndex + delta whenever the sum is in
0..currentBlock, and fails with OutOfRangeError whenever the sum is
negative or exceeds currentBlock; in particular at (currentBlock, 1)
and at (0, -1). -/
theorem offsetBlocks_spec (c : Chain) (b : Nat) (delta : Int) :
    (0 ≤ (b : Int) + delta ∧ (b : Int) + delta ≤ (c.currentBlock : Int) →
      offsetBlocks c b delta = .ok ((b : Int) + delta).toNat) ∧
    ((b : Int) + delta < 0 ∨ (b : Int) + delta > (c.currentBlock : Int) →
      offsetBlocks c b delta = .error .OutOfRangeError) ∧
    offsetBlocks c c.currentBlock 1 = .error .OutOfRangeError ∧
    offsetBlocks c 0 (-1) = .error .OutOfRangeError := by
  refine ⟨?_, ?_, ?_, ?_⟩
  · intro h
    unfold offsetBlocks
    rw [if_neg]
    push_neg
    exact h
  · intro h
    unfold offsetBlocks
    exact if_pos h
  · unfold offsetBlocks
    exact if_pos (Or.inr (lt_add_one _))
  · unfold offsetBlocks
    exact if_pos (Or.inl (by norm_num))

/-- C6 witness: both branches at the concrete chain. -/
theorem offsetBlocks_spec_witness :
    offsetBlocks chainEx 2 1 = .ok ((2 : Int) + 1).toNat ∧
    offsetBlocks chainEx 0 (-1) = .error .OutOfRangeError :=
  ⟨(offsetBlocks_spec chainEx 2 1).1 (by decide),
   (offsetBlocks_spec chainEx 0 (-1)).2.1 (by decide)⟩

/-- C7: block timestamps are non-decreasing in block index: for every
in-range pair b1 < b2 on a monotone chain, both lookups succeed and
currentTimestamp(b1) is at most currentTimestamp(b2). -/
theorem currentTimestamp_mono (c : Chain) (b1 b2 : Nat) (hm : c.Mono)
    (h12 : b1 < b2) (h2 : b2 ≤ c.currentBlock) :
    currentTimestamp c b1 = .ok (c.timestampOf b1) ∧
    currentTimestamp c b2 = .ok (c.timestampOf b2) ∧
    c.timestampOf b1 ≤ c.timestampOf b2 := by
  have h1 : b1 ≤ c.currentBlock := le_trans (Nat.le_of_lt h12) h2
  refine ⟨?_, ?_, ?_⟩
  · unfold currentTimestamp
    rw [if_neg]
    · simp
    · push_neg
      exact ⟨Int.natCast_nonneg b1, by exact_mod_cast h1⟩
  · unfold currentTimestamp
    rw [if_neg]
    · simp
    · push_neg
      exact ⟨Int.natCast_nonneg b2, by exact_mod_cast h2⟩
  · exact mono_pair hm b1 b2 (Nat.le_of_lt h12) h2

/-- C7 witness: monotonicity at a concrete in-range pair. -/
theorem currentTimestamp_mono_witness :
    currentTimestamp chainEx 1 = .ok (chainEx.timestampOf 1) ∧
    currentTimestamp chainEx 4 = .ok (chainEx.timestampOf 4) ∧
    chainEx.timestampOf 1 ≤ chainEx.timestampOf 4 :=
  currentTimestamp_mono chainEx 1 4 (by decide) (by decide) (by decide)

/-- C8: a timezone-aware TimePoint whose UTC instant is strictly
earlier than the timestamp of block 0 makes fromTimestamp fail with
OutOfRangeError rather than return any index. -/
theorem fromTimestamp_before_genesis (c : Chain) (d : DateTime) (off : Int)
    (hoff : d.tzOffset = some off) (ht : d.instant off < c.timestampOf 0) :
    fromTimestamp c (.dt d) = .error .OutOfRangeError := by
  simp only [fromTimestamp, hoff, fromTimestampCore]
  exact if_pos ht

/-- C8 witness: a concrete pre-genesis time point is rejected. -/
theorem fromTimestamp_before_genesis_witness :
    fromTimestamp chainEx (.dt ⟨50, some 0⟩) = .error .OutOfRangeError :=
  fromTimestamp_before_genesis chainEx ⟨50, some 0⟩ 0 rfl (by decide)

/-- C9: a bare numeric unix timestamp is accepted by fromTimestamp
without InvalidInputError, is interpreted as seconds since epoch in
UTC, and yields the same result as the equivalent UTC-aware datetime
for the same instant. -/
theorem fromTimestamp_unix_utc (c : Chain) (t : Int) :
    fromTimestamp c (.unix t) = fromTimestamp c (.dt ⟨t, some 0⟩) ∧
    fromTimestamp c (.unix t) ≠ .error .InvalidInputError := by
  constructor
  · simp [fromTimestamp, DateTime.instant]
  · simp only [fromTimestamp]
    unfold fromTimestampCore
    split <;> simp

/-- C10: the example.block-time model forces the input datetime's
timezone to UTC before converting (keeping the wall-clock reading and
discarding any original offset), so its conversion path never yields
InvalidInputError for any input, naive or aware; only a direct
fromTimestamp call on a naive datetime yields InvalidInputError. -/
theorem blockTime_model_no_invalid (c : Chain) (d : DateTime) :
    replaceTzUtc d = ⟨d.wallClock, some 0⟩ ∧
    blockTimeModelConvert c d ≠ .error .InvalidInputError ∧
    ∀ t : Int, fromTimestamp c (.dt ⟨t, none⟩) = .error .InvalidInputError := by
  refine ⟨rfl, ?_, ?_⟩
  · simp only [blockTimeModelConvert, replaceTzUtc, fromTimestamp]
    unfold fromTimestampCore
    split <;> simp
  · intro t
    simp [fromTimestamp]

end BlockTime
